import Mathlib

/-!
Formal model of the request-coalescing middleware
(`internal/proxy/providers/singleflight_middleware.go`) and of the validator pipeline
(`internal/proxy/options`), together with theorems about key canonicalization,
coalescing behaviour, metric emission, error handling, and validator execution.

Go strings are modelled by Lean `String`, Go slices by `List`, Go `interface{}` results
by the `Box` inductive, and Go `error` values by `Option SFError`.  The in-place
mutation performed by `sort.Strings` on a caller's slice is modelled by returning the
final contents of the slice alongside the call's result.
-/

namespace SSO

/-! ### Lexicographic string order (Go `sort.Strings` comparison)

Go compares strings byte-wise.  We model this with a code-point-wise lexicographic
comparison on the character lists underlying Lean strings; on ASCII data (the realistic
argument domain of emails, tokens and group names) the two orders agree. -/

/-- Lexicographic comparison of character lists by code point. -/
def lexLeB : List Char → List Char → Bool
  | [], _ => true
  | _ :: _, [] => false
  | a :: as, b :: bs =>
    if a.toNat < b.toNat then true
    else if b.toNat < a.toNat then false
    else lexLeB as bs

/-- The order Go's `sort.Strings` sorts by, as a relation on strings. -/
def strLe (s t : String) : Prop := lexLeB s.data t.data = true

instance : DecidableRel strLe := fun s t => instDecidableEqBool (lexLeB s.data t.data) true

theorem char_eq_of_toNat_eq {a b : Char} (h : a.toNat = b.toNat) : a = b := by
  apply Char.eq_of_val_eq
  apply UInt32.ext
  exact h

theorem lexLeB_total (as : List Char) : ∀ bs, lexLeB as bs = true ∨ lexLeB bs as = true := by
  induction as with
  | nil => intro bs; left; rfl
  | cons a as ih =>
    intro bs
    cases bs with
    | nil => right; rfl
    | cons b bs2 =>
      simp only [lexLeB]
      rcases Nat.lt_trichotomy a.toNat b.toNat with h | h | h
      · left; simp [h]
      · have hab : ¬ a.toNat < b.toNat := by omega
        have hba : ¬ b.toNat < a.toNat := by omega
        rcases ih bs2 with h2 | h2
        · left; simp [hab, hba, h2]
        · right; simp [hab, hba, h2]
      · right; simp [h]

theorem lexLeB_trans (as : List Char) :
    ∀ bs cs, lexLeB as bs = true → lexLeB bs cs = true → lexLeB as cs = true := by
  induction as with
  | nil => intro bs cs _ _; rfl
  | cons a as ih =>
    intro bs cs h1 h2
    cases bs with
    | nil => simp [lexLeB] at h1
    | cons b bs2 =>
      cases cs with
      | nil => simp [lexLeB] at h2
      | cons c cs2 =>
        simp only [lexLeB] at h1 h2 ⊢
        by_cases hab : a.toNat < b.toNat
        · by_cases hbc : b.toNat < c.toNat
          · have : a.toNat < c.toNat := by omega
            simp [this]
          · by_cases hcb : c.toNat < b.toNat
            · simp [hbc, hcb] at h2
            · have : a.toNat < c.toNat := by omega
              simp [this]
        · by_cases hba : b.toNat < a.toNat
          · simp [hab, hba] at h1
          · have heq : a.toNat = b.toNat := by omega
            by_cases hbc : b.toNat < c.toNat
            · have : a.toNat < c.toNat := by omega
              simp [this]
            · by_cases hcb : c.toNat < b.toNat
              · simp [hbc, hcb] at h2
              · have hac : ¬ a.toNat < c.toNat := by omega
                have hca : ¬ c.toNat < a.toNat := by omega
                simp only [if_neg hab, if_neg hba] at h1
                simp only [if_neg hbc, if_neg hcb] at h2
                simp only [if_neg hac, if_neg hca]
                exact ih bs2 cs2 h1 h2

theorem lexLeB_antisymm (as : List Char) :
    ∀ bs, lexLeB as bs = true → lexLeB bs as = true → as = bs := by
  induction as with
  | nil =>
    intro bs _ h2
    cases bs with
    | nil => rfl
    | cons b bs2 => simp [lexLeB] at h2
  | cons a as ih =>
    intro bs h1 h2
    cases bs with
    | nil => simp [lexLeB] at h1
    | cons b bs2 =>
      simp only [lexLeB] at h1 h2
      by_cases hab : a.toNat < b.toNat
      · have hba : ¬ b.toNat < a.toNat := by omega
        simp [hab, hba] at h2
      · by_cases hba : b.toNat < a.toNat
        · simp [hab, hba] at h1
        · have heq : a = b := char_eq_of_toNat_eq (by omega)
          simp only [if_neg hab, if_neg hba] at h1 h2
          rw [heq, ih bs2 h1 h2]

instance : IsTotal String strLe := ⟨fun s t => lexLeB_total s.data t.data⟩

instance : IsTrans String strLe := ⟨fun s t u => lexLeB_trans s.data t.data u.data⟩

instance : IsAntisymm String strLe :=
  ⟨fun s t h1 h2 => String.ext (lexLeB_antisymm s.data t.data h1 h2)⟩

/-! ### Go library helpers used by the middleware -/

/-- Go `sort.Strings`: sorts a slice of strings lexicographically.  (Go sorts in place;
where the source mutates a caller's slice we return this value as the slice's final
contents.) -/
def sortStrings (l : List String) : List String := List.insertionSort strLe l

/-- Go `strings.Join(elems, sep)`. -/
def stringsJoin : List String → String → String
  | [], _ => ""
  | [s], _ => s
  | s :: t :: rest, sep => s ++ sep ++ stringsJoin (t :: rest) sep

theorem sortStrings_perm (l : List String) : (sortStrings l).Perm l :=
  List.perm_insertionSort strLe l

theorem sortStrings_sorted (l : List String) : List.Sorted strLe (sortStrings l) :=
  List.sorted_insertionSort strLe l

theorem sortStrings_eq_of_perm {l1 l2 : List String} (h : l1.Perm l2) :
    sortStrings l1 = sortStrings l2 :=
  List.eq_of_perm_of_sorted (((sortStrings_perm l1).trans h).trans (sortStrings_perm l2).symm)
    (sortStrings_sorted l1) (sortStrings_sorted l2)

theorem sortStrings_idem (l : List String) : sortStrings (sortStrings l) = sortStrings l :=
  (sortStrings_sorted l).insertionSort_eq

/-! ### Key canonicalization

`ValidateGroup` (source line 79) builds its key with `fmt.Sprintf("%s:%s", email,
strings.Join(allowedGroups, ","))` from the group list as passed by the caller; the
`sort.Strings(allowedGroups)` on line 80 happens only inside the thunk, after the key
string has already been produced.  `UserGroups` (source lines 107-108) sorts the slice
first and then builds the key from the sorted slice.  Neither key mentions the
`accessToken` argument.  `do` (line 54) prepends the endpoint name. -/

/-- Key argument of `do` in `ValidateGroup`: the group list is joined unsorted. -/
def validateGroupKey (email : String) (allowedGroups : List String) : String :=
  email ++ ":" ++ stringsJoin allowedGroups ","

/-- Key argument of `do` in `UserGroups`: the group list is sorted, then joined. -/
def userGroupsKey (email : String) (groups : List String) : String :=
  email ++ ":" ++ stringsJoin (sortStrings groups) ","

/-- Composite key built by `do`: `fmt.Sprintf("%s/%s", endpoint, key)`. -/
def compositeKey (endpoint key : String) : String := endpoint ++ "/" ++ key

/-- Full canonical call key of a `ValidateGroup` call.  The `accessToken` argument of the
call is in scope but, as in the source, does not flow into the key. -/
def validateGroupCallKey (email : String) (allowedGroups : List String)
    (_accessToken : String) : String :=
  compositeKey "ValidateGroup" (validateGroupKey email allowedGroups)

/-- Full canonical call key of a `UserGroups` call.  The `accessToken` argument of the
call is in scope but, as in the source, does not flow into the key. -/
def userGroupsCallKey (email : String) (groups : List String) (_accessToken : String) :
    String :=
  compositeKey "UserGroups" (userGroupsKey email groups)

/-! ### Injectivity of the key format on separator-free names

The key format `email ++ ":" ++ join(groups, ",")` separates its components only by the
characters `:` and `,`, so it is injective exactly on names that avoid those separators
(and are nonempty, since `join [""] = join [] = ""`).  This matches the spec's
restriction to "bounded alphanumeric emails/tokens/group names". -/

/-- A name from the realistic argument domain: nonempty, with no `:` or `,` in it. -/
def CleanName (s : String) : Prop := s ≠ "" ∧ ':' ∉ s.data ∧ ',' ∉ s.data

instance (s : String) : Decidable (CleanName s) :=
  inferInstanceAs (Decidable (s ≠ "" ∧ ':' ∉ s.data ∧ ',' ∉ s.data))

/-- Character-level image of `stringsJoin gs ","`. -/
def joinC : List (List Char) → List Char
  | [] => []
  | [g] => g
  | g :: h :: rest => g ++ ',' :: joinC (h :: rest)

theorem stringsJoin_data (gs : List String) :
    (stringsJoin gs ",").data = joinC (gs.map String.data) := by
  induction gs with
  | nil => rfl
  | cons s rest ih =>
    cases rest with
    | nil => rfl
    | cons t rest2 =>
      simp only [stringsJoin, List.map, joinC]
      rw [String.data_append, String.data_append, ih]
      simp [List.append_assoc]

theorem append_sep_inj {c : Char} :
    ∀ a1 a2 b1 b2 : List Char, c ∉ a1 → c ∉ a2 →
      a1 ++ c :: b1 = a2 ++ c :: b2 → a1 = a2 ∧ b1 = b2 := by
  intro a1
  induction a1 with
  | nil =>
    intro a2 b1 b2 _ h2 heq
    cases a2 with
    | nil => simpa using heq
    | cons x a2t =>
      simp only [List.nil_append, List.cons_append, List.cons.injEq] at heq
      exact absurd (heq.1 ▸ List.mem_cons_self x a2t) h2
  | cons y a1t ih =>
    intro a2 b1 b2 h1 h2 heq
    cases a2 with
    | nil =>
      simp only [List.nil_append, List.cons_append, List.cons.injEq] at heq
      exact absurd (heq.1 ▸ List.mem_cons_self y a1t) h1
    | cons x a2t =>
      simp only [List.cons_append, List.cons.injEq] at heq
      obtain ⟨he, ht⟩ := heq
      have h1t : c ∉ a1t := fun hm => h1 (List.mem_cons_of_mem y hm)
      have h2t : c ∉ a2t := fun hm => h2 (List.mem_cons_of_mem x hm)
      obtain ⟨ha, hb⟩ := ih a2t b1 b2 h1t h2t ht
      exact ⟨by rw [he, ha], hb⟩

theorem joinC_inj :
    ∀ gs1 gs2 : List (List Char),
      (∀ g ∈ gs1, g ≠ [] ∧ ',' ∉ g) → (∀ g ∈ gs2, g ≠ [] ∧ ',' ∉ g) →
      joinC gs1 = joinC gs2 → gs1 = gs2 := by
  intro gs1
  induction gs1 with
  | nil =>
    intro gs2 _ h2 heq
    cases gs2 with
    | nil => rfl
    | cons g2 r2 =>
      cases r2 with
      | nil =>
        exact absurd heq.symm (h2 g2 (List.mem_cons_self g2 [])).1
      | cons h2e r2t =>
        have : ([] : List Char) = g2 ++ ',' :: joinC (h2e :: r2t) := heq
        cases g2 <;> simp at this
  | cons g1 r1 ih =>
    intro gs2 h1 h2 heq
    cases r1 with
    | nil =>
      cases gs2 with
      | nil =>
        exact absurd heq (h1 g1 (List.mem_cons_self g1 [])).1
      | cons g2 r2 =>
        cases r2 with
        | nil => rw [show g1 = g2 from heq]
        | cons h2e r2t =>
          have hmem : ',' ∈ joinC [g1] := by
            rw [heq]
            show ',' ∈ g2 ++ ',' :: joinC (h2e :: r2t)
            exact List.mem_append_right g2 (List.mem_cons_self ',' _)
          exact absurd hmem (h1 g1 (List.mem_cons_self g1 [])).2
    | cons h1e r1t =>
      cases gs2 with
      | nil =>
        have : g1 ++ ',' :: joinC (h1e :: r1t) = ([] : List Char) := heq
        cases g1 <;> simp at this
      | cons g2 r2 =>
        cases r2 with
        | nil =>
          have hmem : ',' ∈ joinC [g2] := by
            rw [← heq]
            show ',' ∈ g1 ++ ',' :: joinC (h1e :: r1t)
            exact List.mem_append_right g1 (List.mem_cons_self ',' _)
          exact absurd hmem (h2 g2 (List.mem_cons_self g2 _)).2
        | cons h2e r2t =>
          have heq2 : g1 ++ ',' :: joinC (h1e :: r1t) = g2 ++ ',' :: joinC (h2e :: r2t) :=
            heq
          obtain ⟨ha, hb⟩ := append_sep_inj g1 g2 _ _
            (h1 g1 (List.mem_cons_self g1 _)).2 (h2 g2 (List.mem_cons_self g2 _)).2 heq2
          have htail := ih (h2e :: r2t)
            (fun g hg => h1 g (List.mem_cons_of_mem g1 hg))
            (fun g hg => h2 g (List.mem_cons_of_mem g2 hg)) hb
          rw [ha, htail]

theorem string_data_inj : Function.Injective String.data := fun _ _ h => String.ext h

theorem clean_data {gs : List String} (h : ∀ g ∈ gs, CleanName g) :
    ∀ d ∈ gs.map String.data, d ≠ [] ∧ ',' ∉ d := by
  intro d hd
  obtain ⟨g, hg, rfl⟩ := List.mem_map.1 hd
  refine ⟨fun hnil => (h g hg).1 (String.ext hnil), (h g hg).2.2⟩

/-- Injectivity of the `email ++ ":" ++ join(groups, ",")` format on separator-free
nonempty names. -/
theorem joined_key_inj (e1 e2 : String) (gs1 gs2 : List String)
    (he1 : CleanName e1) (he2 : CleanName e2)
    (hg1 : ∀ g ∈ gs1, CleanName g) (hg2 : ∀ g ∈ gs2, CleanName g)
    (h : e1 ++ ":" ++ stringsJoin gs1 "," = e2 ++ ":" ++ stringsJoin gs2 ",") :
    e1 = e2 ∧ gs1 = gs2 := by
  have hd : (e1 ++ ":" ++ stringsJoin gs1 ",").data
      = (e2 ++ ":" ++ stringsJoin gs2 ",").data := by rw [h]
  rw [String.data_append, String.data_append, String.data_append, String.data_append] at hd
  have hd2 : e1.data ++ ':' :: (stringsJoin gs1 ",").data
      = e2.data ++ ':' :: (stringsJoin gs2 ",").data := by
    simpa [List.append_assoc] using hd
  obtain ⟨hemail, hjoin⟩ :=
    append_sep_inj e1.data e2.data _ _ he1.2.1 he2.2.1 hd2
  refine ⟨String.ext hemail, ?_⟩
  rw [stringsJoin_data, stringsJoin_data] at hjoin
  have hmaps := joinC_inj (gs1.map String.data) (gs2.map String.data)
    (clean_data hg1) (clean_data hg2) hjoin
  exact (List.map_injective_iff.2 string_data_inj) hmaps

theorem compositeKey_inj (endpoint k1 k2 : String)
    (h : compositeKey endpoint k1 = compositeKey endpoint k2) : k1 = k2 := by
  have hd : (endpoint ++ "/" ++ k1).data = (endpoint ++ "/" ++ k2).data := by
    rw [show endpoint ++ "/" ++ k1 = endpoint ++ "/" ++ k2 from h]
  rw [String.data_append, String.data_append] at hd
  exact String.ext (List.append_cancel_left hd)

/-! ### Data model -/

/-- `sessions.SessionState`, restricted to the fields this core reads: the access token
and the refresh token used for key derivation, plus the email; the whole value is passed
opaquely to validators and upstream calls. -/
structure SessionState where
  accessToken : String
  refreshToken : String
  email : String
  deriving DecidableEq, Repr

/-- `ProviderData`, opaque to this core (`Data` only passes it through). -/
structure ProviderData where
  raw : String
  deriving DecidableEq, Repr

/-- `url.URL` values are opaque to this core (`GetSignInURL` and `GetSignOutURL` only
pass them through). -/
abbrev URL := String

/-- Go `error` values seen by this core.  `unexpectedReturnType` is the middleware's
`ErrUnexpectedReturnType` (source line 24); `invalidEmailAddress` and `validationError`
are the `options` package errors; `upstream` stands for any error produced by the
wrapped provider.  `groupValidation` is modelled from the spec: the
`providers.GroupValidationError` type is not under `src/` (only its type assertion and
`IsWithinGracePeriod` call are), and per the spec it carries enough information to
determine whether it falls within its grace period at evaluation time, modelled here as
the stored `withinGracePeriod` answer. -/
inductive SFError where
  | upstream (msg : String)
  | unexpectedReturnType
  | invalidEmailAddress
  | validationError
  | groupValidation (withinGracePeriod : Bool)
  deriving DecidableEq, Repr

/-- Result of the `GroupValidationError.IsWithinGracePeriod` check (meaningful only on
`groupValidation` errors). -/
def SFError.isWithinGracePeriod : SFError → Bool
  | .groupValidation withinGracePeriod => withinGracePeriod
  | _ => false

/-- The upstream capability `Provider` interface: the eight operations the middleware
wraps, with `error` results as `Except`.  `ValidateGroup` returns the groups the user is
in plus the allowed flag; `ValidateSessionToken` returns only a boolean. -/
structure Provider where
  data : ProviderData
  redeem : String → String → Except SFError SessionState
  validateGroup : String → List String → String → Except SFError (List String × Bool)
  userGroups : String → List String → String → Except SFError (List String)
  validateSessionToken : SessionState → Bool
  refreshSessionToken : SessionState → Except SFError Bool
  getSignInURL : URL → String → URL
  getSignOutURL : URL → URL

/-- The dynamic (`interface{}`) values the coalesced thunks box their results into:
`*Response` from `ValidateGroup`, a `[]string` from `UserGroups`, a `bool` from
`ValidateSessionToken` and `RefreshSessionToken`.  An absent (`nil`) interface value is
`Option.none` at the use sites. -/
inductive Box where
  | validateGroupResp (inGroups : List String) (allowed : Bool)
  | strings (xs : List String)
  | boolean (b : Bool)
  deriving DecidableEq, Repr

/-! ### The coalescing group (modelled from the spec) and the middleware `do`

The repository's `internal/pkg/singleflight` package is not under `src/`: only its
caller (`SingleFlightProvider.do`) is.  Its semantics are therefore modelled from the
spec, in two forms: a functional solo-call form used by the per-operation definitions,
and an operational generation-level transition system used for the concurrency claims. -/

/-- Modelled from the spec: `singleflight.Group.Do` for a solo caller.  Per the spec's
`Execute(key, work)` contract the leader runs `work` exactly once, synchronously, and
every caller receives `(result, error, joinerCount)` where `joinerCount` is the total
number of callers that shared the execution — here `1`. -/
def singleDo (fn : Unit → Option Box × Option SFError) :
    (Option Box × Option SFError) × Nat :=
  (fn (), 1)

/-- Metric emission in `SingleFlightProvider.do` (source lines 56-59): if the share
count returned by `Do` is positive, increment `provider.singleflight` tagged with the
endpoint by that count.  The share count itself is modelled from the spec, which defines
the returned count as the total number of joiners including the leader. -/
def doMetric (endpoint : String) (joinerCount : Nat) : Option (String × Nat) :=
  if joinerCount > 0 then some (endpoint, joinerCount) else none

/-- `SingleFlightProvider.do` (source lines 53-61): build the composite key, execute the
thunk through the group, emit the duplication metric, and hand back the boxed
(response, error) pair.  The composite key is recorded so that theorems about key
canonicalization can talk about the key this call would coalesce on. -/
def SFPdo (endpoint key : String) (fn : Unit → Option Box × Option SFError) :
    ((Option Box × Option SFError) × Option (String × Nat)) × String :=
  let r := singleDo fn
  ((r.1, doMetric endpoint r.2), compositeKey endpoint key)

/-! ### Coalesced operations of `SingleFlightProvider`

Each operation is split exactly as the source is: a thunk passed to `do` that calls the
upstream provider and boxes the result, and an unboxing step that checks the error and
the dynamic type of the boxed value.  Go's in-place `sort.Strings` on the caller's group
slice is modelled by returning the slice's final contents alongside the result. -/

/-- Thunk of `ValidateGroup` (source lines 79-90): sorts the caller's slice, calls the
upstream provider with the sorted slice, boxes `(inGroups, allowed)` into a `*Response`
on success and propagates the error otherwise. -/
def validateGroupFn (p : Provider) (email : String) (allowedGroups : List String)
    (accessToken : String) : Unit → Option Box × Option SFError := fun _ =>
  let sorted := sortStrings allowedGroups
  match p.validateGroup email sorted accessToken with
  | .error e => (none, some e)
  | .ok ga => (some (.validateGroupResp ga.1 ga.2), none)

/-- Unboxing step of `ValidateGroup` (source lines 92-101): an error is returned as
`(nil, false, err)`; a boxed value that is not a `*Response` yields
`ErrUnexpectedReturnType`. -/
def unboxValidateGroup (response : Option Box) (err : Option SFError) :
    List String × Bool × Option SFError :=
  match err with
  | some e => ([], false, some e)
  | none =>
    match response with
    | some (.validateGroupResp inGroups allowed) => (inGroups, allowed, none)
    | _ => ([], false, some .unexpectedReturnType)

/-- `SingleFlightProvider.ValidateGroup` (source lines 74-102).  The key is derived from
the caller's group list before the thunk's `sort.Strings` runs, so it joins the groups
unsorted.  The second component is the final contents of the caller's slice (the thunk
sorts it in place when the leader executes the work). -/
def SingleFlightValidateGroup (p : Provider) (email : String) (allowedGroups : List String)
    (accessToken : String) : (List String × Bool × Option SFError) × List String :=
  let r := (SFPdo "ValidateGroup" (validateGroupKey email allowedGroups)
      (validateGroupFn p email allowedGroups accessToken)).1.1
  (unboxValidateGroup r.1 r.2, sortStrings allowedGroups)

/-- Thunk of `UserGroups` (source lines 108-110): calls the upstream provider with the
(already sorted) slice and boxes the `[]string` result. -/
def userGroupsFn (p : Provider) (email : String) (sortedGroups : List String)
    (accessToken : String) : Unit → Option Box × Option SFError := fun _ =>
  match p.userGroups email sortedGroups accessToken with
  | .error e => (none, some e)
  | .ok gs => (some (.strings gs), none)

/-- Unboxing step of `UserGroups` (source lines 111-120). -/
def unboxUserGroups (response : Option Box) (err : Option SFError) :
    List String × Option SFError :=
  match err with
  | some e => ([], some e)
  | none =>
    match response with
    | some (.strings gs) => (gs, none)
    | _ => ([], some .unexpectedReturnType)

/-- `SingleFlightProvider.UserGroups` (source lines 105-121): sorts the caller's slice in
place (line 107) before deriving the key, so the key joins the sorted groups; the second
component is the final contents of the caller's slice. -/
def SingleFlightUserGroups (p : Provider) (email : String) (groups : List String)
    (accessToken : String) : (List String × Option SFError) × List String :=
  let sorted := sortStrings groups
  let r := (SFPdo "UserGroups" (userGroupsKey email groups)
      (userGroupsFn p email sorted accessToken)).1.1
  (unboxUserGroups r.1 r.2, sorted)

/-- Thunk of `ValidateSessionToken` (source lines 125-128): the upstream call returns
only a boolean and the thunk never produces an error. -/
def validateSessionTokenFn (p : Provider) (s : SessionState) :
    Unit → Option Box × Option SFError := fun _ =>
  (some (.boolean (p.validateSessionToken s)), none)

/-- Unboxing step of `ValidateSessionToken` (source lines 129-138): any error and any
non-boolean boxed value alike collapse to `false`; the operation's signature has no
error channel. -/
def unboxValidateSessionToken (response : Option Box) (err : Option SFError) : Bool :=
  match err with
  | some _ => false
  | none =>
    match response with
    | some (.boolean b) => b
    | _ => false

/-- `SingleFlightProvider.ValidateSessionToken` (source lines 124-139), keyed on the
session's access token. -/
def SingleFlightValidateSessionToken (p : Provider) (s : SessionState) : Bool :=
  let r := (SFPdo "ValidateSessionToken" s.accessToken (validateSessionTokenFn p s)).1.1
  unboxValidateSessionToken r.1 r.2

/-- Thunk of `RefreshSessionToken` (source lines 144-146). -/
def refreshSessionTokenFn (p : Provider) (s : SessionState) :
    Unit → Option Box × Option SFError := fun _ =>
  match p.refreshSessionToken s with
  | .error e => (none, some e)
  | .ok b => (some (.boolean b), none)

/-- Unboxing step of `RefreshSessionToken` (source lines 147-156). -/
def unboxRefreshSessionToken (response : Option Box) (err : Option SFError) :
    Bool × Option SFError :=
  match err with
  | some e => (false, some e)
  | none =>
    match response with
    | some (.boolean b) => (b, none)
    | _ => (false, some .unexpectedReturnType)

/-- `SingleFlightProvider.RefreshSessionToken` (source lines 143-157), keyed on the
session's refresh token. -/
def SingleFlightRefreshSessionToken (p : Provider) (s : SessionState) :
    Bool × Option SFError :=
  let r := (SFPdo "RefreshSessionToken" s.refreshToken (refreshSessionTokenFn p s)).1.1
  unboxRefreshSessionToken r.1 r.2

/-! ### Pass-through operations (source lines 63-71 and 159-167) -/

/-- `SingleFlightProvider.Data`: direct delegation. -/
def SingleFlightData (p : Provider) : ProviderData := p.data

/-- `SingleFlightProvider.Redeem`: direct delegation, never coalesced. -/
def SingleFlightRedeem (p : Provider) (redirectURL code : String) :
    Except SFError SessionState :=
  p.redeem redirectURL code

/-- `SingleFlightProvider.GetSignInURL`: direct delegation. -/
def SingleFlightGetSignInURL (p : Provider) (redirectURI : URL) (finalRedirect : String) :
    URL :=
  p.getSignInURL redirectURI finalRedirect

/-- `SingleFlightProvider.GetSignOutURL`: direct delegation. -/
def SingleFlightGetSignOutURL (p : Provider) (redirectURI : URL) : URL :=
  p.getSignOutURL redirectURI

/-- A batch of concurrent `Redeem` calls: each call independently invokes the upstream
provider (the method body is a direct delegation with no shared state), so the number of
upstream invocations — threaded through as an explicit counter — grows by one per
call. -/
def redeemBatch (p : Provider) :
    List (String × String) → Nat → List (Except SFError SessionState) × Nat
  | [], upstreamCalls => ([], upstreamCalls)
  | rc :: rest, upstreamCalls =>
    let r := SingleFlightRedeem p rc.1 rc.2
    let rr := redeemBatch p rest (upstreamCalls + 1)
    (r :: rr.1, rr.2)

/-! ### Operational model of the coalescing group for one key

Modelled from the spec (the `internal/pkg/singleflight` package is not under `src/`):
for one key, an arriving caller becomes the leader when no call is in flight — creating
the in-flight record with joiner count 1 and starting one execution of the work — and
otherwise joins the in-flight call, incrementing its joiner count.  Completion delivers
the execution's single (result, error) pair and the total joiner count to every joiner
and removes the record, so a later caller starts a brand-new execution.  `work` is
indexed by the execution number so that distinct generations are visibly independent
executions. -/

/-- Events at one key of the group: a caller arrives, or the in-flight execution
completes. -/
inductive SFEvent where
  | arrive
  | complete
  deriving DecidableEq, Repr

/-- State of the group at one key: the joiner count of the in-flight call (if any), the
number of executions of the work started so far, and, per completed generation, the
(result, error) pair delivered to all of its joiners together with the joiner count. -/
structure SFState where
  inflight : Option Nat
  executions : Nat
  delivered : List ((Option Box × Option SFError) × Nat)
  deriving DecidableEq, Repr

/-- Initial state: no call in flight. -/
def SFState.start : SFState := ⟨none, 0, []⟩

/-- Modelled from the spec: one transition of the coalescing group at one key. -/
def SFState.step (work : Nat → Option Box × Option SFError) (s : SFState) :
    SFEvent → SFState
  | .arrive =>
    match s.inflight with
    | none => ⟨some 1, s.executions + 1, s.delivered⟩
    | some k => ⟨some (k + 1), s.executions, s.delivered⟩
  | .complete =>
    match s.inflight with
    | none => s
    | some k => ⟨none, s.executions, s.delivered ++ [(work (s.executions - 1), k)]⟩

/-- Run a sequence of events. -/
def SFState.run (work : Nat → Option Box × Option SFError) (s : SFState)
    (evs : List SFEvent) : SFState :=
  evs.foldl (SFState.step work) s

/-- One generation at a key: `n` concurrent callers arrive while the call is in flight,
then the leader's execution completes. -/
def generation (n : Nat) : List SFEvent :=
  List.replicate n .arrive ++ [.complete]

theorem SFState.run_append (work : Nat → Option Box × Option SFError) (s : SFState)
    (l1 l2 : List SFEvent) :
    SFState.run work s (l1 ++ l2) = SFState.run work (SFState.run work s l1) l2 :=
  List.foldl_append (SFState.step work) s l1 l2

theorem SFState.run_arrives (work : Nat → Option Box × Option SFError) (e : Nat)
    (d : List ((Option Box × Option SFError) × Nat)) :
    ∀ m k, SFState.run work ⟨some k, e, d⟩ (List.replicate m .arrive) = ⟨some (k + m), e, d⟩ := by
  intro m
  induction m with
  | zero => intro k; rfl
  | succ m ih =>
    intro k
    rw [List.replicate_succ]
    show SFState.run work (SFState.step work ⟨some k, e, d⟩ .arrive) (List.replicate m .arrive) = _
    show SFState.run work ⟨some (k + 1), e, d⟩ (List.replicate m .arrive) = _
    rw [ih (k + 1)]
    have : k + 1 + m = k + (m + 1) := by omega
    rw [this]

theorem SFState.run_generation (work : Nat → Option Box × Option SFError) (e : Nat)
    (d : List ((Option Box × Option SFError) × Nat)) (n : Nat) :
    SFState.run work ⟨none, e, d⟩ (generation (n + 1))
      = ⟨none, e + 1, d ++ [(work e, n + 1)]⟩ := by
  show SFState.run work ⟨none, e, d⟩ (List.replicate (n + 1) .arrive ++ [.complete]) = _
  rw [SFState.run_append]
  rw [List.replicate_succ]
  show SFState.run work
      (SFState.run work (SFState.step work ⟨none, e, d⟩ .arrive) (List.replicate n .arrive))
      [.complete] = _
  show SFState.run work
      (SFState.run work ⟨some 1, e + 1, d⟩ (List.replicate n .arrive)) [.complete] = _
  rw [SFState.run_arrives work (e + 1) d n 1]
  show SFState.step work ⟨some (1 + n), e + 1, d⟩ .complete = _
  show (⟨none, e + 1, d ++ [(work (e + 1 - 1), 1 + n)]⟩ : SFState) = _
  have h1 : e + 1 - 1 = e := by omega
  have h2 : 1 + n = n + 1 := by omega
  rw [h1, h2]

/-! ### Validator pipeline (`internal/proxy/options`) -/

/-- The `options.Validator` interface: a single capability `Validate(session)` returning
an error or nothing. -/
structure Validator where
  validate : SessionState → Option SFError

/-- `options.RunValidators` (source lines 190-200): run every validator in order,
collecting the errors of those that failed. -/
def RunValidators (validators : List Validator) (session : SessionState) :
    List SFError :=
  validators.foldl (fun acc v =>
    match v.validate session with
    | some e => acc ++ [e]
    | none => acc) []

/-- Whether an error is dropped by the grace-period pass: it must be a
`GroupValidationError` (the dynamic type assertion on source line 205) whose
`IsWithinGracePeriod` reports true. -/
def graceSuppressed (e : SFError) : Bool :=
  match e with
  | .groupValidation withinGracePeriod => withinGracePeriod
  | _ => false

/-- `options.RunValidatorsWithGracePeriod` (source lines 202-213): filter the
`RunValidators` output, skipping exactly the group-validation errors whose grace window
is still open. -/
def RunValidatorsWithGracePeriod (validators : List Validator) (session : SessionState) :
    List SFError :=
  (RunValidators validators session).foldl (fun acc err =>
    match err with
    | .groupValidation withinGracePeriod =>
      if withinGracePeriod then acc else acc ++ [.groupValidation withinGracePeriod]
    | e => acc ++ [e]) []

/-! ### Helper lemmas about the pipelines -/

theorem runValidators_foldl (vs : List Validator) (s : SessionState) :
    ∀ acc, vs.foldl (fun acc v =>
        match v.validate s with
        | some e => acc ++ [e]
        | none => acc) acc
      = acc ++ vs.filterMap (fun v => v.validate s) := by
  induction vs with
  | nil => intro acc; simp
  | cons v rest ih =>
    intro acc
    cases h : v.validate s with
    | none => simp only [List.foldl_cons, h, List.filterMap_cons, ih]
    | some e =>
      simp only [List.foldl_cons, h, List.filterMap_cons, ih]
      simp [List.append_assoc]

theorem runValidators_eq_filterMap (vs : List Validator) (s : SessionState) :
    RunValidators vs s = vs.filterMap (fun v => v.validate s) := by
  show vs.foldl _ [] = _
  rw [runValidators_foldl vs s []]
  simp

theorem length_filterMap_validate (vs : List Validator) (s : SessionState) :
    (vs.filterMap (fun v => v.validate s)).length
      = vs.countP (fun v => (v.validate s).isSome) := by
  induction vs with
  | nil => rfl
  | cons v rest ih =>
    cases h : v.validate s with
    | none => simp [List.filterMap_cons, h, List.countP_cons, ih]
    | some e => simp [List.filterMap_cons, h, List.countP_cons, ih]

theorem grace_foldl (errs : List SFError) :
    ∀ acc, errs.foldl (fun acc err =>
        match err with
        | .groupValidation withinGracePeriod =>
          if withinGracePeriod then acc else acc ++ [.groupValidation withinGracePeriod]
        | e => acc ++ [e]) acc
      = acc ++ errs.filter (fun e => !graceSuppressed e) := by
  induction errs with
  | nil => intro acc; simp
  | cons err rest ih =>
    intro acc
    cases err with
    | groupValidation w =>
      cases w with
      | true => simp [List.foldl_cons, ih, List.filter_cons, graceSuppressed]
      | false =>
        simp only [List.foldl_cons, ih, List.filter_cons, graceSuppressed]
        simp [List.append_assoc]
    | upstream msg =>
      simp only [List.foldl_cons, ih, List.filter_cons, graceSuppressed]
      simp [List.append_assoc]
    | unexpectedReturnType =>
      simp only [List.foldl_cons, ih, List.filter_cons, graceSuppressed]
      simp [List.append_assoc]
    | invalidEmailAddress =>
      simp only [List.foldl_cons, ih, List.filter_cons, graceSuppressed]
      simp [List.append_assoc]
    | validationError =>
      simp only [List.foldl_cons, ih, List.filter_cons, graceSuppressed]
      simp [List.append_assoc]

theorem redeemBatch_spec (p : Provider) :
    ∀ (calls : List (String × String)) (upstreamCalls : Nat),
      redeemBatch p calls upstreamCalls
        = (calls.map (fun rc => p.redeem rc.1 rc.2), upstreamCalls + calls.length) := by
  intro calls
  induction calls with
  | nil => intro n; simp [redeemBatch]
  | cons rc rest ih =>
    intro n
    simp only [redeemBatch, SingleFlightRedeem, ih, List.map_cons, List.length_cons]
    have h : n + 1 + rest.length = n + (rest.length + 1) := by omega
    rw [h]

/-! ### Sample providers used to instantiate hypotheses at concrete inputs -/

/-- A provider whose fallible operations all fail with a fixed upstream error. -/
def errProvider (e : SFError) : Provider :=
  ⟨⟨"data"⟩, fun _ _ => .error e, fun _ _ _ => .error e, fun _ _ _ => .error e,
    fun _ => false, fun _ => .error e, fun u _ => u, fun u => u⟩

/-- A provider whose operations all succeed. -/
def okProvider : Provider :=
  ⟨⟨"data"⟩, fun _ _ => .ok ⟨"at", "rt", "e@x.com"⟩, fun _ gs _ => .ok (gs, true),
    fun _ gs _ => .ok gs, fun _ => true, fun _ => .ok true, fun u _ => u, fun u => u⟩

/-! ### Claims -/

/-- C1 (counterexample): the claim that the canonical call key is permutation-invariant
in the group list for `ValidateGroup`, and that the key differs whenever the token
differs, is false on the code: `ValidateGroup` derives its key from the group list
before the thunk sorts it, so the permuted lists `["g2", "g1"]` and `["g1", "g2"]`
produce different keys; and the access token does not flow into the key at all, so two
`UserGroups` calls that differ only in their tokens produce identical keys. -/
theorem C1_counterexample :
    validateGroupCallKey "a@x.com" ["g2", "g1"] "t"
        ≠ validateGroupCallKey "a@x.com" ["g1", "g2"] "t" ∧
    (["g2", "g1"] : List String).Perm ["g1", "g2"] ∧
    userGroupsCallKey "a@x.com" ["g1", "g2"] "token1"
        = userGroupsCallKey "a@x.com" ["g1", "g2"] "token2" ∧
    ("token1" : String) ≠ "token2" := by
  decide

/-- C1 (amended): the `UserGroups` call key is permutation-invariant in the group list,
while the `ValidateGroup` call key joins the groups in caller order; neither key depends
on the access token, so keys agree across differing tokens; and on separator-free
nonempty names (the realistic argument domain), equal keys force equal emails and — for
`UserGroups` — equal group multisets, respectively — for `ValidateGroup` — equal group
lists, so the key differs whenever the email or the group set differs. -/
theorem C1_amended :
    (∀ (email : String) (gs : List String) (t1 t2 : String),
        userGroupsCallKey email gs t1 = userGroupsCallKey email gs t2 ∧
        validateGroupCallKey email gs t1 = validateGroupCallKey email gs t2) ∧
    (∀ (email t : String) (gs1 gs2 : List String), gs1.Perm gs2 →
        userGroupsCallKey email gs1 t = userGroupsCallKey email gs2 t) ∧
    (∀ (e1 e2 t1 t2 : String) (gs1 gs2 : List String),
        CleanName e1 → CleanName e2 →
        (∀ g ∈ gs1, CleanName g) → (∀ g ∈ gs2, CleanName g) →
        userGroupsCallKey e1 gs1 t1 = userGroupsCallKey e2 gs2 t2 →
        e1 = e2 ∧ gs1.Perm gs2) ∧
    (∀ (e1 e2 t1 t2 : String) (gs1 gs2 : List String),
        CleanName e1 → CleanName e2 →
        (∀ g ∈ gs1, CleanName g) → (∀ g ∈ gs2, CleanName g) →
        validateGroupCallKey e1 gs1 t1 = validateGroupCallKey e2 gs2 t2 →
        e1 = e2 ∧ gs1 = gs2) := by
  refine ⟨fun email gs t1 t2 => ⟨rfl, rfl⟩, ?_, ?_, ?_⟩
  · intro email t gs1 gs2 h
    unfold userGroupsCallKey userGroupsKey
    rw [sortStrings_eq_of_perm h]
  · intro e1 e2 t1 t2 gs1 gs2 he1 he2 hg1 hg2 hkey
    unfold userGroupsCallKey at hkey
    have hkey2 : userGroupsKey e1 gs1 = userGroupsKey e2 gs2 :=
      compositeKey_inj "UserGroups" _ _ hkey
    unfold userGroupsKey at hkey2
    have hclean1 : ∀ g ∈ sortStrings gs1, CleanName g := by
      intro g hg
      unfold sortStrings at hg
      exact hg1 g ((List.mem_insertionSort strLe).1 hg)
    have hclean2 : ∀ g ∈ sortStrings gs2, CleanName g := by
      intro g hg
      unfold sortStrings at hg
      exact hg2 g ((List.mem_insertionSort strLe).1 hg)
    obtain ⟨hemail, hsort⟩ :=
      joined_key_inj e1 e2 (sortStrings gs1) (sortStrings gs2) he1 he2 hclean1 hclean2 hkey2
    refine ⟨hemail, ?_⟩
    have hp : gs1.Perm (sortStrings gs1) := (sortStrings_perm gs1).symm
    rw [hsort] at hp
    exact hp.trans (sortStrings_perm gs2)
  · intro e1 e2 t1 t2 gs1 gs2 he1 he2 hg1 hg2 hkey
    unfold validateGroupCallKey at hkey
    have hkey2 : validateGroupKey e1 gs1 = validateGroupKey e2 gs2 :=
      compositeKey_inj "ValidateGroup" _ _ hkey
    unfold validateGroupKey at hkey2
    exact joined_key_inj e1 e2 gs1 gs2 he1 he2 hg1 hg2 hkey2

/-- C1 (witness): the amended theorem applied at concrete inputs — permuting the group
list and changing the token leaves the `UserGroups` key unchanged, and key injectivity
applied at equal concrete keys recovers the email and the group multiset. -/
theorem C1_amended_witness :
    userGroupsCallKey "a@x.com" ["g2", "g1"] "t1"
        = userGroupsCallKey "a@x.com" ["g1", "g2"] "t2" ∧
    (("a@x.com" : String) = "a@x.com" ∧ (["g2", "g1"] : List String).Perm ["g1", "g2"]) := by
  constructor
  · exact (C1_amended.2.1 "a@x.com" "t1" ["g2", "g1"] ["g1", "g2"] (by decide)).trans
      (C1_amended.1 "a@x.com" ["g1", "g2"] "t1" "t2").1
  · exact C1_amended.2.2.1 "a@x.com" "a@x.com" "t1" "t2" ["g2", "g1"] ["g1", "g2"]
      (by decide) (by decide) (by decide) (by decide) (by decide)

/-- C2: in the (spec-modelled) coalescing group, a generation of `n + 1` concurrent
callers at one key performs exactly one execution of the work and delivers a single
identical (result, error) pair — the pair the work produced — to all `n + 1` joiners,
reporting joiner count `n + 1`; a second generation arriving after
completion-and-removal performs a brand-new, independent execution (the total execution
count becomes 2 and the second generation receives the second execution's pair, not a
reused one). -/
theorem C2_coalescing (work : Nat → Option Box × Option SFError) (n m : Nat) :
    (SFState.run work SFState.start (generation (n + 1))).executions = 1 ∧
    (SFState.run work SFState.start (generation (n + 1))).delivered = [(work 0, n + 1)] ∧
    (SFState.run work SFState.start (generation (n + 1) ++ generation (m + 1))).executions
      = 2 ∧
    (SFState.run work SFState.start (generation (n + 1) ++ generation (m + 1))).delivered
      = [(work 0, n + 1), (work 1, m + 1)] := by
  have h1 : SFState.run work SFState.start (generation (n + 1))
      = ⟨none, 1, [(work 0, n + 1)]⟩ := by
    have h := SFState.run_generation work 0 [] n
    simpa [SFState.start] using h
  have h2 : SFState.run work SFState.start (generation (n + 1) ++ generation (m + 1))
      = ⟨none, 2, [(work 0, n + 1), (work 1, m + 1)]⟩ := by
    rw [SFState.run_append, h1, SFState.run_generation work 1 [(work 0, n + 1)] m]
    simp
  exact ⟨by rw [h1], by rw [h1], by rw [h2], by rw [h2]⟩

/-- C3: the non-coalesced operations `Data`, `Redeem`, `GetSignInURL` and
`GetSignOutURL` are pure pass-throughs — each returns exactly what the wrapped upstream
provider returns — and a batch of concurrent `Redeem` calls invokes the upstream
provider once per call (no coalescing). -/
theorem C3_passthrough :
    (∀ p : Provider, SingleFlightData p = p.data) ∧
    (∀ (p : Provider) (redirectURL code : String),
        SingleFlightRedeem p redirectURL code = p.redeem redirectURL code) ∧
    (∀ (p : Provider) (redirectURI : URL) (finalRedirect : String),
        SingleFlightGetSignInURL p redirectURI finalRedirect
          = p.getSignInURL redirectURI finalRedirect) ∧
    (∀ (p : Provider) (redirectURI : URL),
        SingleFlightGetSignOutURL p redirectURI = p.getSignOutURL redirectURI) ∧
    (∀ (p : Provider) (calls : List (String × String)),
        (redeemBatch p calls 0).1 = calls.map (fun rc => p.redeem rc.1 rc.2) ∧
        (redeemBatch p calls 0).2 = calls.length) := by
  refine ⟨fun p => rfl, fun p r c => rfl, fun p u f => rfl, fun p u => rfl, ?_⟩
  intro p calls
  rw [redeemBatch_spec p calls 0]
  exact ⟨rfl, by simp⟩

/-- C4 (counterexample): the claim that every coalesced operation reports a generic
internal error on a shape mismatch and never silently coerces to a default is false for
`ValidateSessionToken`: its signature has no error channel, and a mismatched boxed value
yields `false` — exactly the value a failed validation yields. -/
theorem C4_counterexample :
    unboxValidateSessionToken (some (Box.strings [])) none = false ∧
    unboxValidateSessionToken (some (Box.strings [])) none
      = unboxValidateSessionToken (some (Box.boolean false)) none :=
  ⟨rfl, rfl⟩

/-- C4 (amended): the coalesced operations whose signatures carry an error —
`ValidateGroup`, `UserGroups`, `RefreshSessionToken` — report `ErrUnexpectedReturnType`
when the boxed value cannot be unboxed into the expected shape; `ValidateSessionToken`,
whose signature has no error channel, instead coerces a mismatch to `false`. -/
theorem C4_amended :
    (∀ response : Option Box,
        (∀ (g : List String) (a : Bool), response ≠ some (Box.validateGroupResp g a)) →
        unboxValidateGroup response none = ([], false, some SFError.unexpectedReturnType)) ∧
    (∀ response : Option Box, (∀ xs : List String, response ≠ some (Box.strings xs)) →
        unboxUserGroups response none = ([], some SFError.unexpectedReturnType)) ∧
    (∀ response : Option Box, (∀ b : Bool, response ≠ some (Box.boolean b)) →
        unboxRefreshSessionToken response none
          = (false, some SFError.unexpectedReturnType)) ∧
    (∀ response : Option Box, (∀ b : Bool, response ≠ some (Box.boolean b)) →
        unboxValidateSessionToken response none = false) := by
  refine ⟨?_, ?_, ?_, ?_⟩
  · intro response h
    match response with
    | none => rfl
    | some (Box.validateGroupResp g a) => exact absurd rfl (h g a)
    | some (Box.strings xs) => rfl
    | some (Box.boolean b) => rfl
  · intro response h
    match response with
    | none => rfl
    | some (Box.validateGroupResp g a) => rfl
    | some (Box.strings xs) => exact absurd rfl (h xs)
    | some (Box.boolean b) => rfl
  · intro response h
    match response with
    | none => rfl
    | some (Box.validateGroupResp g a) => rfl
    | some (Box.strings xs) => rfl
    | some (Box.boolean b) => exact absurd rfl (h b)
  · intro response h
    match response with
    | none => rfl
    | some (Box.validateGroupResp g a) => rfl
    | some (Box.strings xs) => rfl
    | some (Box.boolean b) => exact absurd rfl (h b)

/-- C4 (witness): the amended theorem applied at concrete mismatched boxed values. -/
theorem C4_amended_witness :
    unboxValidateGroup (some (Box.boolean true)) none
      = ([], false, some SFError.unexpectedReturnType) ∧
    unboxUserGroups (some (Box.boolean true)) none
      = ([], some SFError.unexpectedReturnType) ∧
    unboxRefreshSessionToken (some (Box.strings [])) none
      = (false, some SFError.unexpectedReturnType) ∧
    unboxValidateSessionToken (some (Box.strings [])) none = false := by
  refine ⟨C4_amended.1 _ ?_, C4_amended.2.1 _ ?_, C4_amended.2.2.1 _ ?_,
    C4_amended.2.2.2 _ ?_⟩
  · intro g a h
    exact Box.noConfusion (Option.some.inj h)
  · intro xs h
    exact Box.noConfusion (Option.some.inj h)
  · intro b h
    exact Box.noConfusion (Option.some.inj h)
  · intro b h
    exact Box.noConfusion (Option.some.inj h)

/-- C5 (counterexample): the claim that a duplication metric is emitted iff the joiner
count exceeds 1, with value `joinerCount - 1`, is false on the code (under the spec's
definition of the returned count as the total joiner count): a solo call has joiner
count 1 and still emits the metric, and a call with joiner count 3 emits the value 3,
not 2. -/
theorem C5_counterexample :
    doMetric "ValidateSessionToken" 1 = some ("ValidateSessionToken", 1) ∧
    ¬ (1 > 1) ∧
    doMetric "UserGroups" 3 = some ("UserGroups", 3) ∧
    (("UserGroups", 3) : String × Nat) ≠ ("UserGroups", 3 - 1) := by
  refine ⟨rfl, by omega, rfl, by decide⟩

/-- A do-nothing thunk, used to instantiate `SFPdo` at a concrete input. -/
def trivialFn : Unit → Option Box × Option SFError := fun _ => (none, none)

/-- C5 (amended): `do` emits the `provider.singleflight` metric, tagged with the
operation name, whenever the joiner count is at least 1 — that is, on every completed
call — and the emitted value equals the joiner count itself (the total number of
sharers), not `joinerCount - 1`; in particular each solo call through `SFPdo` emits the
value 1. -/
theorem C5_amended (endpoint key : String) (fn : Unit → Option Box × Option SFError)
    (joinerCount : Nat) (h : 1 ≤ joinerCount) :
    doMetric endpoint joinerCount = some (endpoint, joinerCount) ∧
    doMetric endpoint 0 = none ∧
    ((SFPdo endpoint key fn).1).2 = some (endpoint, 1) := by
  refine ⟨?_, rfl, rfl⟩
  unfold doMetric
  rw [if_pos (by omega)]

/-- C5 (witness): the amended theorem applied at a concrete joiner count. -/
theorem C5_amended_witness :
    doMetric "UserGroups" 3 = some ("UserGroups", 3) ∧
    doMetric "UserGroups" 0 = none ∧
    ((SFPdo "UserGroups" "k" trivialFn).1).2 = some ("UserGroups", 1) :=
  C5_amended "UserGroups" "k" trivialFn 3 (by omega)

/-- C6: `RunValidators` evaluates every validator in order and returns exactly one error
per failing validator, in validator order (it equals the `filterMap` of the validators'
answers, and its length is the number of failing validators); the result is empty iff
every validator passed. -/
theorem C6_run_validators (vs : List Validator) (s : SessionState) :
    RunValidators vs s = vs.filterMap (fun v => v.validate s) ∧
    (RunValidators vs s).length = vs.countP (fun v => (v.validate s).isSome) ∧
    (RunValidators vs s = [] ↔ ∀ v ∈ vs, v.validate s = none) := by
  have h := runValidators_eq_filterMap vs s
  refine ⟨h, ?_, ?_⟩
  · rw [h]
    exact length_filterMap_validate vs s
  · rw [h]
    exact List.filterMap_eq_nil_iff

/-- C7: `RunValidatorsWithGracePeriod` returns the `RunValidators` sequence with exactly
those errors removed that are group-validation errors whose grace window is open; all
other errors pass through unchanged and in order. -/
theorem C7_grace_period (vs : List Validator) (s : SessionState) :
    RunValidatorsWithGracePeriod vs s
      = (RunValidators vs s).filter (fun e => !graceSuppressed e) ∧
    (∀ e : SFError, graceSuppressed e = true ↔ e = SFError.groupValidation true) := by
  constructor
  · show (RunValidators vs s).foldl _ [] = _
    rw [grace_foldl (RunValidators vs s) []]
    simp
  · intro e
    cases e <;> simp [graceSuppressed]

/-- C8: for every coalesced operation, an error produced by the underlying work is
returned verbatim to the caller — `ValidateGroup`, `UserGroups` and
`RefreshSessionToken` hand back exactly the upstream error — and `ValidateSessionToken`'s
thunk never produces an error at all, so the coalescing layer introduces no error kind
beyond what the work produces, except the middleware's shape-mismatch error. -/
theorem C8_error_verbatim :
    (∀ (p : Provider) (email : String) (gs : List String) (tok : String) (e : SFError),
        p.validateGroup email (sortStrings gs) tok = .error e →
        (SingleFlightValidateGroup p email gs tok).1 = ([], false, some e)) ∧
    (∀ (p : Provider) (email : String) (gs : List String) (tok : String) (e : SFError),
        p.userGroups email (sortStrings gs) tok = .error e →
        (SingleFlightUserGroups p email gs tok).1 = ([], some e)) ∧
    (∀ (p : Provider) (s : SessionState) (e : SFError),
        p.refreshSessionToken s = .error e →
        SingleFlightRefreshSessionToken p s = (false, some e)) ∧
    (∀ (p : Provider) (s : SessionState), (validateSessionTokenFn p s ()).2 = none) := by
  refine ⟨?_, ?_, ?_, fun p s => rfl⟩
  · intro p email gs tok e h
    simp [SingleFlightValidateGroup, SFPdo, singleDo, validateGroupFn, unboxValidateGroup, h]
  · intro p email gs tok e h
    simp [SingleFlightUserGroups, SFPdo, singleDo, userGroupsFn, unboxUserGroups, h]
  · intro p s e h
    simp [SingleFlightRefreshSessionToken, SFPdo, singleDo, refreshSessionTokenFn,
      unboxRefreshSessionToken, h]

/-- C8 (witness): the verbatim-error theorem applied at a provider whose operations fail
with a fixed upstream error. -/
theorem C8_error_verbatim_witness :
    (SingleFlightValidateGroup (errProvider (SFError.upstream "boom")) "a@x.com" ["g1"]
        "t").1 = ([], false, some (SFError.upstream "boom")) ∧
    (SingleFlightUserGroups (errProvider (SFError.upstream "boom")) "a@x.com" ["g1"]
        "t").1 = ([], some (SFError.upstream "boom")) ∧
    SingleFlightRefreshSessionToken (errProvider (SFError.upstream "boom"))
        ⟨"at", "rt", "e@x.com"⟩ = (false, some (SFError.upstream "boom")) ∧
    (validateSessionTokenFn (errProvider (SFError.upstream "boom"))
        ⟨"at", "rt", "e@x.com"⟩ ()).2 = none :=
  ⟨C8_error_verbatim.1 _ "a@x.com" ["g1"] "t" _ rfl,
    C8_error_verbatim.2.1 _ "a@x.com" ["g1"] "t" _ rfl,
    C8_error_verbatim.2.2.1 _ ⟨"at", "rt", "e@x.com"⟩ _ rfl,
    C8_error_verbatim.2.2.2 _ ⟨"at", "rt", "e@x.com"⟩⟩

/-- C9 (counterexample): the claim that key canonicalization does not mutate the
caller's argument values is false on the code: `UserGroups` sorts the caller's group
slice in place before deriving the key, so after the call the slice `["g2", "g1"]` holds
`["g1", "g2"]`. -/
theorem C9_counterexample :
    (SingleFlightUserGroups okProvider "a@x.com" ["g2", "g1"] "t").2 ≠ ["g2", "g1"] ∧
    (SingleFlightUserGroups okProvider "a@x.com" ["g2", "g1"] "t").2 = ["g1", "g2"] := by
  decide

/-- C9 (amended): key derivation is a pure function of the operation's arguments
(determinism and absence of I/O hold by construction of the embedding), but
canonicalization mutates the caller's group slice: after `UserGroups` (and after
`ValidateGroup`'s thunk runs) the slice holds a sorted permutation of its original
contents; re-deriving the `UserGroups` key from the mutated slice yields the same
key. -/
theorem C9_amended (p : Provider) (email : String) (groups : List String)
    (accessToken : String) :
    ((SingleFlightUserGroups p email groups accessToken).2).Perm groups ∧
    List.Sorted strLe (SingleFlightUserGroups p email groups accessToken).2 ∧
    ((SingleFlightValidateGroup p email groups accessToken).2).Perm groups ∧
    userGroupsCallKey email (SingleFlightUserGroups p email groups accessToken).2
        accessToken
      = userGroupsCallKey email groups accessToken := by
  have h2 : (SingleFlightUserGroups p email groups accessToken).2 = sortStrings groups :=
    rfl
  have h3 : (SingleFlightValidateGroup p email groups accessToken).2 = sortStrings groups :=
    rfl
  rw [h2, h3]
  refine ⟨sortStrings_perm groups, sortStrings_sorted groups, sortStrings_perm groups, ?_⟩
  unfold userGroupsCallKey userGroupsKey
  rw [sortStrings_idem]

/-- C10: `ValidateSessionToken` never surfaces an error: any error from the coalesced
call and any non-boolean boxed value alike produce `false`, the same value as a failed
validation, so callers cannot distinguish an invalid token from an internal fault. -/
theorem C10_swallows_errors :
    (∀ (response : Option Box) (e : SFError),
        unboxValidateSessionToken response (some e) = false) ∧
    (∀ response : Option Box, (∀ b : Bool, response ≠ some (Box.boolean b)) →
        unboxValidateSessionToken response none = false) ∧
    (∀ (response : Option Box) (e : SFError),
        unboxValidateSessionToken response (some e)
          = unboxValidateSessionToken (some (Box.boolean false)) none) := by
  refine ⟨fun response e => rfl, ?_, fun response e => rfl⟩
  intro response h
  match response with
  | none => rfl
  | some (Box.validateGroupResp g a) => rfl
  | some (Box.strings xs) => rfl
  | some (Box.boolean b) => exact absurd rfl (h b)

/-- C10 (witness): the theorem applied at a concrete non-boolean boxed value. -/
theorem C10_swallows_errors_witness :
    unboxValidateSessionToken (some (Box.strings ["g1"])) none = false :=
  C10_swallows_errors.2.1 _ (by
    intro b h
    exact Box.noConfusion (Option.some.inj h))

end SSO
